import Mathlib

/-!
Shallow embedding of `module_packager.py` (recursive dependency discovery:
an AST-import strategy, a package-metadata strategy, an orchestrator with
fallback, and an ASCII tree renderer).

External collaborators (the filesystem under site-packages, `importlib`
metadata records, `sys.stdlib_module_names`, the configuration file and the
`packaging.Requirement` parser) are modelled as explicit environment data;
the control flow and state updates of the Python code are translated
faithfully.  Python `set`s become `Finset String`; the recursion of
`find_module_dependencies` / `_parse_imports` / `_check_module` (terminated
in Python by the `processed` set) is run through an explicit task stack with
a fuel parameter, one fuel unit per step, which keeps every definition
structurally recursive and hence executable by `decide`.
-/

set_option maxRecDepth 4000

/-- Split a character list at every dot, keeping empty pieces (the behaviour
of Python's `s.split(".")`); structural recursion so that kernel reduction
(`decide`) can evaluate it, unlike `String.splitOn`. -/
def splitCharsAux : List Char → List Char → List (List Char)
  | [], acc => [acc.reverse]
  | c :: cs, acc =>
    if c = '.' then acc.reverse :: splitCharsAux cs []
    else splitCharsAux cs (c :: acc)

/-- Models Python's `s.split(".")`. -/
def splitDots (s : String) : List String :=
  (splitCharsAux s.toList []).map String.mk

/-- Models Python's `".".join(l)`. -/
def joinDots : List String → String
  | [] => ""
  | [x] => x
  | x :: xs => x ++ "." ++ joinDots xs

/-- Models `s.split(".")[0]`: the characters of `s` before the first dot. -/
def topLevel (s : String) : String :=
  String.mk (s.toList.takeWhile (fun c => c != '.'))

/-- Models Python's `s.lower()` (kernel-reducible, unlike `String.toLower`). -/
def lowerStr (s : String) : String :=
  String.mk (s.toList.map Char.toLower)

/-- Models Python's `s.strip()` (kernel-reducible, unlike `String.trim`). -/
def trimStr (s : String) : String :=
  String.mk (((s.toList.dropWhile Char.isWhitespace).reverse.dropWhile Char.isWhitespace).reverse)

/-- Models Python's `s.replace(a, b)` for single-character patterns
(kernel-reducible, unlike `String.replace`). -/
def replaceChar (a b : Char) (s : String) : String :=
  String.mk (s.toList.map (fun c => if c = a then b else c))

/-- Models the ascending prefix loop `".".join(parts[:i])` for `i = 1..len(parts)`
(used by the exclusion and stdlib checks). -/
def dottedPrefixes (m : String) : List String :=
  let parts := splitDots m
  (List.range parts.length).map (fun j => joinDots (parts.take (j + 1)))

/-- Models the descending prefix loop `".".join(parts[:i])` for `i = len(parts)..1`
(longest-prefix match in `_check_module`). -/
def descPrefixes (m : String) : List String :=
  let parts := splitDots m
  (List.range parts.length).map (fun j => joinDots (parts.take (parts.length - j)))

/-- Is some dotted-prefix ancestor of `m` contained in `l`?  Models the
`for i in range(1, len(module_parts)+1): if parent_module in ...` loops. -/
def anyPrefixIn (l : List String) (m : String) : Bool :=
  (dottedPrefixes m).any (fun p => l.contains p)

/-- Exclusion check of `find_module_dependencies` / `_check_module`:
`m` is excluded when any dotted-prefix ancestor is in the excluded list. -/
def isExcluded (excluded : List String) (m : String) : Bool :=
  anyPrefixIn excluded m

/-- An import statement as seen by `ast.walk` in `_parse_imports`:
`imp names` is `import a, b`; `impFrom mod level names` is
`from <mod> import names` with relative level `level` (`mod = none` for a
purely relative `from . import x`). -/
inductive ImportStmt where
  | imp (names : List String)
  | impFrom (mod : Option String) (level : Nat) (names : List String)
deriving Repr

/-- A site-packages entry for a name: a directory (with the parsed contents of
each `.py` file inside, each parsed with `current_module` = the package name),
or a non-directory entry (with `hasPy` = whether a sibling `<name>.py` exists,
and that file's parsed contents). -/
inductive SiteEntry where
  | dir (files : List (List ImportStmt))
  | file (hasPy : Bool) (stmts : List ImportStmt)
deriving Repr

/-- Marker-evaluation outcome of a parsed requirement, abstracting the
`marker.evaluate()` call in `build_metadata_graph`: no marker object, a marker
without an `evaluate` attribute, an evaluation that raises, or an evaluation
returning a boolean. -/
inductive MarkerCase where
  | noMarker
  | noEval
  | raises
  | value (b : Bool)
deriving Repr

/-- Result of `_normalize_req`: parsed name (possibly `none`/empty), whether
the parsed `extras` set is nonempty, and the marker behaviour. -/
structure ReqInfo where
  rname : Option String
  extras : Bool
  marker : MarkerCase
deriving Repr

/-- An installed distribution's metadata record: `canonical` models
`dist.metadata.get("Name")` (`none` when absent), `requires` the raw
`Requires-Dist` strings, `topLevels` the result of `_dist_top_levels`. -/
structure DistInfo where
  canonical : Option String
  requires : List String
  topLevels : List String
deriving Repr

/-- The installed-metadata provider plus the requirement parser in use
(`packaging.Requirement`, or the in-file fallback class). -/
structure MetaEnv where
  dists : List (String × DistInfo)
  normalize : String → ReqInfo

/-- The whole external environment of a `ModulePackager` instance. -/
structure Env where
  excluded : List String
  sysStdlib : List String
  cfgStdlib : List String
  entries : List (String × SiteEntry)
  specMods : List (String × (Bool × List ImportStmt))
  meta : MetaEnv
  modulesExtras : List (String × List String)

/-- `self.config["modules"].get(name, {}).get("include_extras", [])`. -/
def getModuleExtras (env : Env) (m : String) : List String :=
  ((env.modulesExtras.find? (fun kv => kv.1 == m)).map Prod.snd).getD []

/-- Does `site_packages / name` exist? -/
def siteExists (env : Env) (m : String) : Bool :=
  (env.entries.find? (fun kv => kv.1 == m)).isSome

/-- Look up the site-packages entry for `name`. -/
def siteLookup (env : Env) (m : String) : Option SiteEntry :=
  (env.entries.find? (fun kv => kv.1 == m)).map Prod.snd

/-- Models `importlib.util.find_spec(name)`: `none` when the spec is missing
(or the lookup raises); otherwise whether the origin lies inside
site-packages, and the parsed contents of the origin file. -/
def specLookup (env : Env) (m : String) : Option (Bool × List ImportStmt) :=
  (env.specMods.find? (fun kv => kv.1 == m)).map Prod.snd

/-- The mutable resolution state of a `ModulePackager`:
`processed`, `external_deps`, and `import_edges` (as a set of
`(parent top-level, child top-level)` pairs, since `defaultdict(set)` keys
are only ever created together with a child). -/
structure WState where
  processed : Finset String
  external_deps : Finset String
  import_edges : Finset (String × String)

/-- `_record_edge(parent, child)`: skip falsy names, reduce both to their
top-level segment, skip self-edges, otherwise add the edge. -/
def recordEdge (parent child : String) (st : WState) : WState :=
  if parent = "" ∨ child = "" then st
  else if topLevel parent = topLevel child then st
  else { st with import_edges := insert (topLevel parent, topLevel child) st.import_edges }

/-- Defunctionalized continuations of the mutually recursive
`find_module_dependencies` / `_parse_imports` / `_check_module`:
`find m` is a call to `find_module_dependencies(m)`; `files cur fs` iterates
the `.py` files of a package directory; `stmts cur l` iterates the import
statements of one file (`_parse_imports` with `current_module = cur`);
`names skipStar pre cur l` iterates the alias names of one statement,
prefixing each with `pre` when present and skipping `"*"` when `skipStar`;
`check m` is a call to `_check_module(m)`. -/
inductive WTask where
  | find (m : String)
  | files (cur : String) (fs : List (List ImportStmt))
  | stmts (cur : String) (l : List ImportStmt)
  | names (skipStar : Bool) (pre : Option String) (cur : String) (l : List String)
  | check (m : String)

/-- Run the import-strategy walker: the Python call stack of
`find_module_dependencies` / `_parse_imports` / `_check_module` is made
explicit as a task stack, executed depth-first; one fuel unit per step.
Python terminates via the `processed` set; a sufficiently large fuel makes
the two agree on any finite environment. -/
def runTasks (env : Env) : Nat → List WTask → WState → WState
  | 0, _, st => st
  | _ + 1, [], st => st
  | fuel + 1, t :: ts, st =>
    match t with
    | .find m =>
      if m ∈ st.processed then runTasks env fuel ts st
      else
        let st1 := { st with processed := insert m st.processed }
        let excl := isExcluded env.excluded m
        match siteLookup env m with
        | some e =>
          let st2 := if excl then st1
                     else { st1 with external_deps := insert m st1.external_deps }
          match e with
          | .dir fs => runTasks env fuel (.files m fs :: ts) st2
          | .file hasPy fstmts =>
            if hasPy then runTasks env fuel (.stmts m fstmts :: ts) st2
            else runTasks env fuel ts st2
        | none =>
          match specLookup env m with
          | some (inSite, fstmts) =>
            if inSite then
              let st2 := if excl then st1
                         else { st1 with external_deps := insert m st1.external_deps }
              runTasks env fuel (.stmts m fstmts :: ts) st2
            else runTasks env fuel ts st1
          | none => runTasks env fuel ts st1
    | .files cur fs =>
      match fs with
      | [] => runTasks env fuel ts st
      | f :: rest => runTasks env fuel (.stmts cur f :: .files cur rest :: ts) st
    | .stmts cur l =>
      match l with
      | [] => runTasks env fuel ts st
      | s :: rest =>
        match s with
        | .imp ns =>
          runTasks env fuel (.names false none cur ns :: .stmts cur rest :: ts) st
        | .impFrom mod level ns =>
          let modT : Option String :=
            match mod with
            | some m => if m = "" then none else some m
            | none => none
          match modT with
          | some m =>
            runTasks env fuel
              (.check m :: .names true (some m) cur ns :: .stmts cur rest :: ts)
              (recordEdge cur m st)
          | none =>
            if level > 0 ∧ ¬ cur = "" then
              if level = 1 then
                if (splitDots cur).length > 1 then
                  let par := joinDots ((splitDots cur).dropLast)
                  runTasks env fuel
                    (.names true (if par = "" then none else some par) cur ns ::
                      .stmts cur rest :: ts) st
                else
                  runTasks env fuel (.names true none cur ns :: .stmts cur rest :: ts) st
              else runTasks env fuel (.stmts cur rest :: ts) st
            else runTasks env fuel (.stmts cur rest :: ts) st
    | .names skipStar pre cur l =>
      match l with
      | [] => runTasks env fuel ts st
      | a :: rest =>
        if skipStar ∧ a = "*" then
          runTasks env fuel (.names skipStar pre cur rest :: ts) st
        else
          let full := match pre with
            | none => a
            | some p => p ++ "." ++ a
          runTasks env fuel (.check full :: .names skipStar pre cur rest :: ts)
            (recordEdge cur full st)
    | .check m =>
      if m = "" ∨ m ∈ st.processed then runTasks env fuel ts st
      else if isExcluded env.excluded m then runTasks env fuel ts st
      else if anyPrefixIn env.sysStdlib m then runTasks env fuel ts st
      else if anyPrefixIn env.cfgStdlib m then runTasks env fuel ts st
      else
        match (descPrefixes m).find? (fun p => siteExists env p) with
        | some piece =>
          if piece ∈ st.processed then runTasks env fuel ts st
          else runTasks env fuel (.find piece :: ts) st
        | none =>
          let base := topLevel m
          let vars := [base, replaceChar '_' '-' base, replaceChar '-' '_' base]
          match vars.find? (fun v => siteExists env v && !(decide (v ∈ st.processed))) with
          | some v => runTasks env fuel (.find v :: ts) st
          | none => runTasks env fuel ts st

/-- `find_module_dependencies(root)` started on a given state. -/
def findModuleDependencies (env : Env) (fuel : Nat) (root : String) (st : WState) : WState :=
  runTasks env fuel [WTask.find root] st

/-- The minimal fallback `Requirement` parser defined in the source (used when
`packaging` is not installed): strip, cut at the first of `;`, `(`, space,
strip again; no extras, no marker. -/
def fallbackNormalize (s : String) : ReqInfo :=
  let r := trimStr s
  let cut := match r.toList.findIdx? (fun c => c == ';' || c == '(' || c == ' ') with
    | some i => i
    | none => r.toList.length
  { rname := some (trimStr (String.mk (r.toList.take cut)))
    extras := false
    marker := MarkerCase.noMarker }

/-- The marker test of `build_metadata_graph`:
`if marker and hasattr(marker, "evaluate") and not marker.evaluate(): continue`
wrapped in `try/except: pass`.  Only a completed evaluation returning `False`
causes a skip; a missing marker, a missing `evaluate`, or a raising
evaluation falls through. -/
def markerSkips : MarkerCase → Bool
  | .value false => true
  | _ => false

/-- Result triple of `build_metadata_graph`: `dep_dists`, `dep_modules`, and
the adjacency `tree` (as a set of `(parent dist, child requirement)` pairs;
`defaultdict(set)` keys only exist together with a child). -/
structure MetaResult where
  dists : Finset String
  modules : Finset String
  tree : Finset (String × String)

/-- One iteration of the `Requires-Dist` loop of `build_metadata_graph`:
parse the requirement, skip when no name was parsed, skip when the marker
evaluated to `False`, skip when it declares extras and `include_extras` is
off, otherwise record the graph edge and push the required name. -/
def reqStep (env : MetaEnv) (includeExtras : Bool) (distName : String)
    (acc : MetaResult × List String) (req : String) : MetaResult × List String :=
  let r := env.normalize req
  match r.rname with
  | none => acc
  | some n =>
    if n = "" then acc
    else if markerSkips r.marker then acc
    else if r.extras = true ∧ includeExtras = false then acc
    else ({ acc.1 with tree := insert (distName, n) acc.1.tree }, n :: acc.2)

/-- The full `Requires-Dist` loop of `build_metadata_graph` for one
distribution, threading the result and the work stack. -/
def reqFold (env : MetaEnv) (includeExtras : Bool) (distName : String)
    (reqs : List String) (acc : MetaResult × List String) : MetaResult × List String :=
  reqs.foldl (reqStep env includeExtras distName) acc

/-- `importlib.metadata.distribution(name)` lookup (case-insensitive on the
distribution name; `none` models `PackageNotFoundError`). -/
def metaLookup (env : MetaEnv) (name : String) : Option DistInfo :=
  ((env.dists.find? (fun kv => lowerStr kv.1 == lowerStr name)).map Prod.snd)

/-- The `while stack:` loop of `build_metadata_graph`: pop a name, dedupe via
the case-insensitive `seen` set, look up the distribution (skip when not
found), record its canonical name and top-level modules, then run the
requirements loop. -/
def buildMeta (env : MetaEnv) (includeExtras : Bool) :
    Nat → List String → Finset String → MetaResult → MetaResult
  | 0, _, _, acc => acc
  | _ + 1, [], _, acc => acc
  | fuel + 1, name :: stack, seen, acc =>
    let key := lowerStr name
    if key ∈ seen then buildMeta env includeExtras fuel stack seen acc
    else
      let seen1 := insert key seen
      match metaLookup env name with
      | none => buildMeta env includeExtras fuel stack seen1 acc
      | some d =>
        let distName := d.canonical.getD name
        let acc1 : MetaResult :=
          { acc with
            dists := insert distName acc.dists
            modules := acc.modules ∪ d.topLevels.toFinset }
        let rs := reqFold env includeExtras distName d.requires (acc1, stack)
        buildMeta env includeExtras fuel rs.2 seen1 rs.1

/-- `build_metadata_graph(root_dist_name, include_extras)`. -/
def buildMetadataGraph (env : MetaEnv) (fuel : Nat) (root : String)
    (includeExtras : Bool) : MetaResult :=
  buildMeta env includeExtras fuel [root] ∅ ⟨∅, ∅, ∅⟩

/-- The best-effort reverse mapping at the end of the imports fallback of
`inspect_dependencies`: scan all installed distributions and add the
canonical name of each whose top-level listing overlaps a discovered
module's top-level segment. -/
def inferDists (env : MetaEnv) (mods : Finset String) : Finset String :=
  env.dists.foldl
    (fun acc kv =>
      let tops := kv.2.topLevels
      if ∃ m ∈ mods, tops.contains (topLevel m) then
        match kv.2.canonical with
        | some n => if n = "" then acc else insert n acc
        | none => acc
      else acc)
    ∅

/-- The `ResolutionResult` returned by `inspect_dependencies`:
`(dep_modules, dep_dists, tree, tree_kind)`. -/
structure InspectOut where
  modules : Finset String
  dists : Finset String
  graph : Finset (String × String)
  kind : Option String

/-- The three `clear()` calls before the fallback import walk:
`external_deps.clear(); processed.clear(); import_edges.clear()`. -/
def clearState (st : WState) : WState :=
  { st with external_deps := ∅, processed := ∅, import_edges := ∅ }

/-- The fallback branch of `inspect_dependencies`: clear the resolution
state, run the AST import walker, merge discovered modules, best-effort
infer distributions, and report `tree_kind = "imports"`. -/
def importsFallback (env : Env) (fuel : Nat) (name : String)
    (mods0 : Finset String) (st : WState) : InspectOut × WState :=
  let st1 := clearState st
  let st2 := runTasks env fuel [WTask.find name] st1
  let mods := mods0 ∪ st2.external_deps
  let dists := inferDists env.meta mods
  (⟨mods, dists, st2.import_edges, some "imports"⟩, st2)

/-- `inspect_dependencies(module_or_dist, strategy, include_extras,
extra_modules)`: seed the module set with the per-module config extras and
the caller-supplied extra modules; for strategy `metadata`/`auto` run the
metadata walker and return `tree_kind = "metadata"` when it found any
distribution or module; otherwise fall back to the import walker. -/
def inspect_dependencies (env : Env) (fuel : Nat) (name strategy : String)
    (includeExtras : Bool) (extraModules : List String) (st : WState) :
    InspectOut × WState :=
  let mods0 : Finset String :=
    ∅ ∪ (getModuleExtras env name).toFinset ∪ extraModules.toFinset
  if strategy = "metadata" ∨ strategy = "auto" then
    let r := buildMetadataGraph env.meta fuel name includeExtras
    if ¬ r.dists = ∅ ∨ ¬ r.modules = ∅ then
      (⟨mods0 ∪ r.modules, ∅ ∪ r.dists, r.tree, some "metadata"⟩, st)
    else importsFallback env fuel name mods0 st
  else importsFallback env fuel name mods0 st

/-- Lexicographic (code-point) order on character lists: the order Python's
`sorted` uses on strings (kernel-reducible, unlike `String.ltb`). -/
def charListLe : List Char → List Char → Bool
  | [], _ => true
  | _ :: _, [] => false
  | a :: as, b :: bs =>
    if a.toNat < b.toNat then true
    else if a.toNat = b.toNat then charListLe as bs
    else false

/-- Models Python's string comparison `s <= t`. -/
def strLe (s t : String) : Bool :=
  charListLe s.toList t.toList

/-- Connector glyph of `_render_tree`: corner for a last child, tee otherwise. -/
def connector (isLast : Bool) : String :=
  if isLast then "└── " else "├── "

/-- The state threaded through `_render_tree`'s `walk`: the output lines and
the `global_visited` set.  `visited_in_path` is scoped by a matching
`add`/`discard` pair around the recursive calls, i.e. it is exactly the set
of ancestors on the current path, so it is modelled as a read-only
parameter of `rwalk` rather than as mutable state. -/
structure RS where
  lines : List String
  gvis : Finset String

/-- `child_prefix` computation of `walk`: empty below the root, otherwise the
parent's prefix extended with a blank or a continuation glyph. -/
def childPrefOf (pref : String) (isLast : Bool) (depth : Nat) : String :=
  if depth = 0 then "" else pref ++ (if isLast then "    " else "│   ")

/-- `sorted(adjacency.get(node, set()))`. -/
def lookupChildren (adj : List (String × List String)) (node : String) : List String :=
  List.insertionSort (fun a b => strLe a b)
    (((adj.find? (fun kv => kv.1 == node)).map Prod.snd).getD [])

/-- The `for i, child in enumerate(children)` loop of `walk`: visit each child
with the shared child prefix, the last child flagged, sequencing the state. -/
def rchildrenAux (f : String → String → Bool → RS → Option RS) (cpre : String) :
    List String → RS → Option RS
  | [], s => some s
  | c :: cs, s =>
    match f c cpre cs.isEmpty s with
    | none => none
    | some s1 => rchildrenAux f cpre cs s1

/-- `walk(node, prefix, is_last, depth)` of `_render_tree`, with `path` the
current-path set and one fuel unit per depth level (`none` = fuel exhausted;
`rwalk_isSome` below shows fuel beyond the node count never runs out).
A node already on the current path is printed with the circular marker and
not descended into; a node is printed with the already-shown marker when in
`global_visited`, and its children are expanded only on first visit. -/
def rwalk (adj : List (String × List String)) :
    Nat → String → String → Bool → Nat → Finset String → RS → Option RS
  | 0, _, _, _, _, _, _ => none
  | fuel + 1, node, pref, isLast, depth, path, s =>
    if node ∈ path then
      some { s with lines := s.lines ++ [pref ++ connector isLast ++ node ++ " ↻ (circular)\n"] }
    else
      let s1 : RS :=
        if depth = 0 then { s with lines := s.lines ++ [node ++ "\n"] }
        else
          let marker := if node ∈ s.gvis then " (already shown)" else ""
          { s with lines := s.lines ++ [pref ++ connector isLast ++ node ++ marker ++ "\n"] }
      let children := lookupChildren adj node
      if node ∈ s1.gvis then some s1
      else
        rchildrenAux
          (fun c cpre l s0 => rwalk adj fuel c cpre l (depth + 1) (insert node path) s0)
          (childPrefOf pref isLast depth) children
          { s1 with gvis := insert node s1.gvis }

/-- The `for i, root in enumerate(roots_list)` loop of `_render_tree`:
clear the path for each root, walk it, and insert a blank spacer line
between consecutive root trees (`global_visited` persists across roots). -/
def renderRoots (adj : List (String × List String)) (fuel : Nat) :
    List String → RS → Option (List String)
  | [], s => some s.lines
  | r :: rs, s =>
    match rwalk adj fuel r "" true 0 ∅ s with
    | none => none
    | some s1 =>
      match rs with
      | [] => some s1.lines
      | _ :: _ => renderRoots adj fuel rs { s1 with lines := s1.lines ++ ["\n"] }

/-- `_render_tree(adjacency, roots)`: `sorted(set(roots))`, then walk each
root (the source joins the returned lines into one string). -/
def renderTree (adj : List (String × List String)) (roots : List String)
    (fuel : Nat) : Option (List String) :=
  renderRoots adj fuel (List.insertionSort (fun a b => strLe a b) roots.dedup) ⟨[], ∅⟩

/-- Every node a render of `adj` from `roots` can ever touch: all adjacency
keys, all adjacency children, and all roots. -/
def rUniv (adj : List (String × List String)) (roots : List String) : Finset String :=
  ((adj.map Prod.fst) ++ (adj.map Prod.snd).flatten ++ roots).toFinset

/-- The edge invariant claimed for dependency graphs: parent and child are
top-level segments, and the edge is not a self-edge. -/
def edgeOk (e : String × String) : Prop :=
  topLevel e.1 = e.1 ∧ topLevel e.2 = e.2 ∧ e.1 ≠ e.2

/-- Scenario environment: package `foo` (a directory whose source imports
`bar` and `os`), package `bar` (imports nothing), `os` in the runtime
stdlib listing; no metadata records. -/
def env1 : Env :=
  { excluded := [], sysStdlib := ["os"], cfgStdlib := []
    entries := [("foo", .dir [[.imp ["bar"], .imp ["os"]]]), ("bar", .dir [[]])]
    specMods := [], meta := ⟨[], fallbackNormalize⟩, modulesExtras := [] }

/-- Completely empty environment: nothing installed, no metadata, no config. -/
def env0 : Env :=
  { excluded := [], sysStdlib := [], cfgStdlib := [], entries := []
    specMods := [], meta := ⟨[], fallbackNormalize⟩, modulesExtras := [] }

/-- Scenario environment for exclusion: `foo` is excluded, is a directory
package importing `bar`, and `bar` (not excluded) is reachable only
through `foo`. -/
def env4 : Env :=
  { excluded := ["foo"], sysStdlib := [], cfgStdlib := []
    entries := [("foo", .dir [[.imp ["bar"]]]), ("bar", .dir [[]])]
    specMods := [], meta := ⟨[], fallbackNormalize⟩, modulesExtras := [] }

/-- Metadata-only environment for the marker scenario: distribution `foo`
declares one requirement whose parse yields name `bar`, a nonempty extras
set, and a marker whose evaluation raises. -/
def env5 : MetaEnv :=
  ⟨[("foo", ⟨some "foo", ["bar[x]; sys_platform == \"win32\""], ["foo"]⟩)],
   fun s =>
     if s = "bar[x]; sys_platform == \"win32\"" then ⟨some "bar", true, .raises⟩
     else fallbackNormalize s⟩

/-- Metadata environment of the spec's extras scenario: `foo` declares
`Requires-Dist: bar` and `Requires-Dist: baz; extra == "x"`, parsed with the
source's fallback `Requirement` class (no `packaging` installed). -/
def env6 : MetaEnv :=
  ⟨[("foo", ⟨some "foo", ["bar", "baz; extra == \"x\""], ["foo"]⟩),
    ("bar", ⟨some "bar", [], ["bar"]⟩),
    ("baz", ⟨some "baz", [], ["baz"]⟩)], fallbackNormalize⟩

/-- Metadata environment with a self-requirement (`foo` requires `foo`) and a
dotted distribution name (`zope.interface`). -/
def env9 : MetaEnv :=
  ⟨[("foo", ⟨some "foo", ["foo", "zope.interface"], ["foo"]⟩),
    ("zope.interface", ⟨some "zope.interface", [], ["zope"]⟩)], fallbackNormalize⟩

/-- Environment whose configuration maps module `pkg` to the extra module
list `["extramod"]`; nothing installed. -/
def env10 : Env :=
  { excluded := [], sysStdlib := [], cfgStdlib := [], entries := []
    specMods := [], meta := ⟨[], fallbackNormalize⟩
    modulesExtras := [("pkg", ["extramod"])] }

theorem takeWhile_idem (p : Char → Bool) (l : List Char) :
    (l.takeWhile p).takeWhile p = l.takeWhile p := by
  induction l with
  | nil => simp
  | cons a l ih =>
    by_cases ha : p a = true
    · simp [List.takeWhile_cons, ha, ih]
    · simp [List.takeWhile_cons, ha]

theorem topLevel_idem (s : String) : topLevel (topLevel s) = topLevel s := by
  unfold topLevel
  congr 1
  exact takeWhile_idem _ _

theorem recordEdge_external (p c : String) (st : WState) :
    (recordEdge p c st).external_deps = st.external_deps := by
  unfold recordEdge
  split
  · rfl
  · split
    · rfl
    · rfl

theorem recordEdge_processed (p c : String) (st : WState) :
    (recordEdge p c st).processed = st.processed := by
  unfold recordEdge
  split
  · rfl
  · split
    · rfl
    · rfl

theorem recordEdge_edges_ok (p c : String) (st : WState)
    (h : ∀ e ∈ st.import_edges, edgeOk e) :
    ∀ e ∈ (recordEdge p c st).import_edges, edgeOk e := by
  unfold recordEdge
  split
  · exact h
  · split
    · exact h
    · intro e he
      rcases Finset.mem_insert.mp he with rfl | he
      · exact ⟨topLevel_idem p, topLevel_idem c, by assumption⟩
      · exact h e he

theorem mem_condInsertW (env : Env) (m x : String) (st1 : WState)
    (h : x ∈ (if isExcluded env.excluded m = true then st1
              else { st1 with external_deps := insert m st1.external_deps }).external_deps) :
    x ∈ st1.external_deps ∨ isExcluded env.excluded x = false := by
  split at h
  · exact Or.inl h
  · rename_i hex
    simp only at h
    rcases Finset.mem_insert.mp h with rfl | hmem
    · exact Or.inr (by simpa using hex)
    · exact Or.inl hmem

theorem runTasks_external_sub (env : Env) :
    ∀ (fuel : Nat) (ts : List WTask) (st : WState) (x : String),
      x ∈ (runTasks env fuel ts st).external_deps →
      x ∈ st.external_deps ∨ isExcluded env.excluded x = false := by
  intro fuel
  induction fuel with
  | zero =>
    intro ts st x h
    simp only [runTasks] at h
    exact Or.inl h
  | succ n ih =>
    intro ts st x h
    cases ts with
    | nil =>
      simp only [runTasks] at h
      exact Or.inl h
    | cons t ts =>
      cases t with
      | find m =>
        simp only [runTasks] at h
        split at h
        · exact ih ts st x h
        · rename_i hproc
          cases hsl : siteLookup env m with
          | some e =>
            rw [hsl] at h
            cases e with
            | dir fs =>
              simp only at h
              rcases ih _ _ x h with h2 | h2
              · rcases mem_condInsertW env m x _ h2 with h3 | h3
                · exact Or.inl h3
                · exact Or.inr h3
              · exact Or.inr h2
            | file hasPy fstmts =>
              simp only at h
              split at h
              all_goals
                rcases ih _ _ x h with h2 | h2
                · rcases mem_condInsertW env m x _ h2 with h3 | h3
                  · exact Or.inl h3
                  · exact Or.inr h3
                · exact Or.inr h2
          | none =>
            rw [hsl] at h
            simp only at h
            cases hsp : specLookup env m with
            | some pr =>
              rw [hsp] at h
              simp only at h
              split at h
              · rcases ih _ _ x h with h2 | h2
                · rcases mem_condInsertW env m x _ h2 with h3 | h3
                  · exact Or.inl h3
                  · exact Or.inr h3
                · exact Or.inr h2
              · rcases ih _ _ x h with h2 | h2
                · exact Or.inl h2
                · exact Or.inr h2
            | none =>
              rw [hsp] at h
              simp only at h
              rcases ih _ _ x h with h2 | h2
              · exact Or.inl h2
              · exact Or.inr h2
      | files cur fs =>
        simp only [runTasks] at h
        cases fs with
        | nil => exact ih _ _ x h
        | cons f rest => exact ih _ _ x h
      | stmts cur l =>
        simp only [runTasks] at h
        cases l with
        | nil => exact ih _ _ x h
        | cons s rest =>
          cases s with
          | imp ns => exact ih _ _ x h
          | impFrom mod level ns =>
            simp only at h
            rcases hmt : (match mod with
              | some m => if m = "" then none else some m
              | none => (none : Option String)) with _ | m
            · rw [hmt] at h
              simp only at h
              split at h
              · split at h
                · split at h
                  · exact ih _ _ x h
                  · exact ih _ _ x h
                · exact ih _ _ x h
              · exact ih _ _ x h
            · rw [hmt] at h
              simp only at h
              rcases ih _ _ x h with h2 | h2
              · rw [recordEdge_external] at h2
                exact Or.inl h2
              · exact Or.inr h2
      | names skipStar pre cur l =>
        simp only [runTasks] at h
        cases l with
        | nil => exact ih _ _ x h
        | cons a rest =>
          simp only at h
          split at h
          · exact ih _ _ x h
          · rcases ih _ _ x h with h2 | h2
            · rw [recordEdge_external] at h2
              exact Or.inl h2
            · exact Or.inr h2
      | check m =>
        simp only [runTasks] at h
        split at h
        · exact ih _ _ x h
        · split at h
          · exact ih _ _ x h
          · split at h
            · exact ih _ _ x h
            · split at h
              · exact ih _ _ x h
              · rcases hdp : (descPrefixes m).find? (fun p => siteExists env p) with _ | piece
                · rw [hdp] at h
                  simp only at h
                  rcases hv : ([topLevel m, replaceChar '_' '-' (topLevel m),
                      replaceChar '-' '_' (topLevel m)].find?
                        (fun v => siteExists env v && !(decide (v ∈ st.processed)))) with _ | v
                  · rw [hv] at h
                    exact ih _ _ x h
                  · rw [hv] at h
                    exact ih _ _ x h
                · rw [hdp] at h
                  simp only at h
                  split at h
                  · exact ih _ _ x h
                  · exact ih _ _ x h

theorem condInsertW_edges_ok (env : Env) (m : String) (st1 : WState)
    (h : ∀ e ∈ st1.import_edges, edgeOk e) :
    ∀ e ∈ (if isExcluded env.excluded m = true then st1
           else { st1 with external_deps := insert m st1.external_deps }).import_edges,
      edgeOk e := by
  split
  · exact h
  · exact h

theorem runTasks_edges_ok (env : Env) :
    ∀ (fuel : Nat) (ts : List WTask) (st : WState),
      (∀ e ∈ st.import_edges, edgeOk e) →
      ∀ e ∈ (runTasks env fuel ts st).import_edges, edgeOk e := by
  intro fuel
  induction fuel with
  | zero =>
    intro ts st hinv e he
    simp only [runTasks] at he
    exact hinv e he
  | succ n ih =>
    intro ts st hinv e he
    cases ts with
    | nil =>
      simp only [runTasks] at he
      exact hinv e he
    | cons t ts =>
      cases t with
      | find m =>
        simp only [runTasks] at he
        split at he
        · exact ih ts st (by exact hinv) e he
        · cases hsl : siteLookup env m with
          | some se =>
            rw [hsl] at he
            cases se with
            | dir fs =>
              simp only at he
              exact ih _ _ (by exact condInsertW_edges_ok env m _ hinv) e he
            | file hasPy fstmts =>
              simp only at he
              split at he
              · exact ih _ _ (by exact condInsertW_edges_ok env m _ hinv) e he
              · exact ih _ _ (by exact condInsertW_edges_ok env m _ hinv) e he
          | none =>
            rw [hsl] at he
            simp only at he
            cases hsp : specLookup env m with
            | some pr =>
              rw [hsp] at he
              simp only at he
              split at he
              · exact ih _ _ (by exact condInsertW_edges_ok env m _ hinv) e he
              · exact ih _ _ (by exact hinv) e he
            | none =>
              rw [hsp] at he
              simp only at he
              exact ih _ _ (by exact hinv) e he
      | files cur fs =>
        simp only [runTasks] at he
        cases fs with
        | nil => exact ih _ _ (by exact hinv) e he
        | cons f rest => exact ih _ _ (by exact hinv) e he
      | stmts cur l =>
        simp only [runTasks] at he
        cases l with
        | nil => exact ih _ _ (by exact hinv) e he
        | cons s rest =>
          cases s with
          | imp ns => exact ih _ _ (by exact hinv) e he
          | impFrom mod level ns =>
            simp only at he
            rcases hmt : (match mod with
              | some m => if m = "" then none else some m
              | none => (none : Option String)) with _ | m
            · rw [hmt] at he
              simp only at he
              split at he
              · split at he
                · split at he
                  · exact ih _ _ (by exact hinv) e he
                  · exact ih _ _ (by exact hinv) e he
                · exact ih _ _ (by exact hinv) e he
              · exact ih _ _ (by exact hinv) e he
            · rw [hmt] at he
              simp only at he
              exact ih _ _ (by exact recordEdge_edges_ok cur m st hinv) e he
      | names skipStar pre cur l =>
        simp only [runTasks] at he
        cases l with
        | nil => exact ih _ _ (by exact hinv) e he
        | cons a rest =>
          simp only at he
          split at he
          · exact ih _ _ (by exact hinv) e he
          · exact ih _ _ (by exact recordEdge_edges_ok cur _ st hinv) e he
      | check m =>
        simp only [runTasks] at he
        split at he
        · exact ih _ _ (by exact hinv) e he
        · split at he
          · exact ih _ _ (by exact hinv) e he
          · split at he
            · exact ih _ _ (by exact hinv) e he
            · split at he
              · exact ih _ _ (by exact hinv) e he
              · rcases hdp : (descPrefixes m).find? (fun p => siteExists env p) with _ | piece
                · rw [hdp] at he
                  simp only at he
                  rcases hv : ([topLevel m, replaceChar '_' '-' (topLevel m),
                      replaceChar '-' '_' (topLevel m)].find?
                        (fun v => siteExists env v && !(decide (v ∈ st.processed)))) with _ | v
                  · rw [hv] at he
                    exact ih _ _ (by exact hinv) e he
                  · rw [hv] at he
                    exact ih _ _ (by exact hinv) e he
                · rw [hdp] at he
                  simp only at he
                  split at he
                  · exact ih _ _ (by exact hinv) e he
                  · exact ih _ _ (by exact hinv) e he

theorem reqStep_tree_mono (env : MetaEnv) (ie : Bool) (dn : String)
    (acc : MetaResult × List String) (r : String) :
    acc.1.tree ⊆ (reqStep env ie dn acc r).1.tree := by
  unfold reqStep
  dsimp only
  split
  · exact Finset.Subset.refl _
  · split
    · exact Finset.Subset.refl _
    · split
      · exact Finset.Subset.refl _
      · split
        · exact Finset.Subset.refl _
        · exact Finset.subset_insert _ _

theorem reqStep_stack_mono (env : MetaEnv) (ie : Bool) (dn : String)
    (acc : MetaResult × List String) (r : String) (x : String)
    (h : x ∈ acc.2) : x ∈ (reqStep env ie dn acc r).2 := by
  unfold reqStep
  dsimp only
  split
  · exact h
  · split
    · exact h
    · split
      · exact h
      · split
        · exact h
        · exact List.mem_cons_of_mem _ h

theorem reqFold_tree_mono (env : MetaEnv) (ie : Bool) (dn : String) :
    ∀ (reqs : List String) (acc : MetaResult × List String),
      acc.1.tree ⊆ (reqFold env ie dn reqs acc).1.tree := by
  intro reqs
  induction reqs with
  | nil => intro acc; exact Finset.Subset.refl _
  | cons r rs ihr =>
    intro acc
    exact Finset.Subset.trans (reqStep_tree_mono env ie dn acc r) (ihr _)

theorem reqFold_stack_mono (env : MetaEnv) (ie : Bool) (dn : String) :
    ∀ (reqs : List String) (acc : MetaResult × List String) (x : String),
      x ∈ acc.2 → x ∈ (reqFold env ie dn reqs acc).2 := by
  intro reqs
  induction reqs with
  | nil => intro acc x h; exact h
  | cons r rs ihr =>
    intro acc x h
    exact ihr _ x (reqStep_stack_mono env ie dn acc r x h)

theorem inferDists_empty (env : MetaEnv) : inferDists env ∅ = ∅ := by
  unfold inferDists
  induction env.dists with
  | nil => rfl
  | cons kv rest ihr =>
    simp only [List.foldl_cons]
    have hcond : ¬ ∃ m ∈ (∅ : Finset String), kv.2.topLevels.contains (topLevel m) := by
      simp
    rw [if_neg hcond]
    exact ihr

theorem lookupChildren_mem (adj : List (String × List String)) (node c : String)
    (h : c ∈ lookupChildren adj node) : ∃ kv ∈ adj, c ∈ kv.2 := by
  unfold lookupChildren at h
  have h1 := (List.perm_insertionSort _ _).mem_iff.mp h
  cases hf : (adj.find? (fun kv => kv.1 == node)) with
  | none => rw [hf] at h1; simp at h1
  | some kv =>
    rw [hf] at h1
    simp at h1
    exact ⟨kv, List.mem_of_find?_eq_some hf, h1⟩

theorem sdiff_insert_card_lt (U path : Finset String) (node : String)
    (hU : node ∈ U) (hp : node ∉ path) :
    (U \ insert node path).card < (U \ path).card := by
  apply Finset.card_lt_card
  rw [Finset.ssubset_iff_of_subset
    (Finset.sdiff_subset_sdiff (Finset.Subset.refl U) (Finset.subset_insert node path))]
  refine ⟨node, Finset.mem_sdiff.mpr ⟨hU, hp⟩, ?_⟩
  intro hmem
  exact (Finset.mem_sdiff.mp hmem).2 (Finset.mem_insert_self node path)

theorem rchildrenAux_isSome (f : String → String → Bool → RS → Option RS) (cpre : String) :
    ∀ (cs : List String) (s : RS),
      (∀ c ∈ cs, ∀ cp l s0, (f c cp l s0).isSome) →
      (rchildrenAux f cpre cs s).isSome := by
  intro cs
  induction cs with
  | nil => intro s _; simp [rchildrenAux]
  | cons c cs ihc =>
    intro s h
    have hc := h c (List.mem_cons_self c cs) cpre cs.isEmpty s
    unfold rchildrenAux
    cases hfc : f c cpre cs.isEmpty s with
    | none => rw [hfc] at hc; simp at hc
    | some s1 =>
      exact ihc s1 (fun c' hc' cp l s0 => h c' (List.mem_cons_of_mem c hc') cp l s0)

theorem rwalk_isSome (adj : List (String × List String)) (U : Finset String)
    (hadj : ∀ kv ∈ adj, ∀ c ∈ kv.2, c ∈ U) :
    ∀ (fuel : Nat) (node pref : String) (isLast : Bool) (depth : Nat)
      (path : Finset String) (s : RS), node ∈ U → (U \ path).card < fuel →
      (rwalk adj fuel node pref isLast depth path s).isSome := by
  intro fuel
  induction fuel with
  | zero =>
    intro node pref isLast depth path s hn hcard
    omega
  | succ n ihf =>
    intro node pref isLast depth path s hn hcard
    rw [rwalk]
    split
    · simp
    · rename_i hnp
      dsimp only
      split
      all_goals
        split
        · simp
        · apply rchildrenAux_isSome
          intro c hc cp l s0
          apply ihf c cp l (depth + 1) (insert node path) s0
          · rcases lookupChildren_mem adj node c hc with ⟨kv, hkv, hck⟩
            exact hadj kv hkv c hck
          · have := sdiff_insert_card_lt U path node hn hnp
            omega

theorem renderRoots_isSome (adj : List (String × List String)) (U : Finset String)
    (hadj : ∀ kv ∈ adj, ∀ c ∈ kv.2, c ∈ U) (fuel : Nat) (hfuel : U.card < fuel) :
    ∀ (rl : List String) (s : RS), (∀ r ∈ rl, r ∈ U) →
      (renderRoots adj fuel rl s).isSome := by
  intro rl
  induction rl with
  | nil => intro s _; simp [renderRoots]
  | cons r rs ihr =>
    intro s hr
    have h1 : (rwalk adj fuel r "" true 0 ∅ s).isSome := by
      apply rwalk_isSome adj U hadj fuel r "" true 0 ∅ s (hr r (List.mem_cons_self r rs))
      simpa using hfuel
    rw [renderRoots]
    cases hw : rwalk adj fuel r "" true 0 ∅ s with
    | none => rw [hw] at h1; simp at h1
    | some s1 =>
      cases rs with
      | nil => simp
      | cons r2 rs2 =>
        exact ihr _ (fun r' h' => hr r' (List.mem_cons_of_mem r h'))

theorem renderTree_isSome (adj : List (String × List String)) (roots : List String)
    (fuel : Nat) (h : (rUniv adj roots).card < fuel) :
    (renderTree adj roots fuel).isSome := by
  unfold renderTree
  apply renderRoots_isSome adj (rUniv adj roots) ?hadj fuel h
  · intro r hr
    have h1 : r ∈ roots.dedup :=
      (List.perm_insertionSort _ _).mem_iff.mp hr
    have h2 : r ∈ roots := List.mem_dedup.mp h1
    unfold rUniv
    exact List.mem_toFinset.mpr (List.mem_append_right _ h2)
  case hadj =>
    intro kv hkv c hc
    unfold rUniv
    have hfl : c ∈ (adj.map Prod.snd).flatten :=
      List.mem_flatten.mpr ⟨kv.2, List.mem_map_of_mem Prod.snd hkv, hc⟩
    exact List.mem_toFinset.mpr (List.mem_append_left _ (List.mem_append_right _ hfl))


/-- Claim C1 counterexample: in the spec's imports scenario (`foo` imports
`bar` and `os`, `os` stdlib), the resulting edge graph is not `{foo: {bar}}` —
the edge from `foo` to `os` is recorded, because `_record_edge` runs before
`_check_module`'s stdlib filter. -/
theorem c1_counterexample :
    ("foo", "os") ∈ (inspect_dependencies env1 40 "foo" "imports" false [] ⟨∅, ∅, ∅⟩).1.graph
    ∧ ¬ (inspect_dependencies env1 40 "foo" "imports" false [] ⟨∅, ∅, ∅⟩).1.graph
        = {("foo", "bar")} := by
  refine ⟨by decide, by decide⟩

/-- Claim C1 amended: resolving `foo` with the imports strategy yields
`discovered = {foo, bar}` and `strategy_used = imports`, but the edge graph is
`{foo: {bar, os}}`: the stdlib filter suppresses traversal and discovery of
`os`, not the recording of the edge to it. -/
theorem c1_amended :
    (inspect_dependencies env1 40 "foo" "imports" false [] ⟨∅, ∅, ∅⟩).1.modules
      = {"foo", "bar"}
    ∧ (inspect_dependencies env1 40 "foo" "imports" false [] ⟨∅, ∅, ∅⟩).1.graph
      = {("foo", "bar"), ("foo", "os")}
    ∧ (inspect_dependencies env1 40 "foo" "imports" false [] ⟨∅, ∅, ∅⟩).1.kind
      = some "imports" := by
  refine ⟨by decide, by decide, by decide⟩

/-- Claim C2 counterexample: on an input where the metadata strategy yields
nothing and the import walk discovers nothing, `inspect_dependencies` returns
empty sets but `strategy_used = imports`, not `none` — the fallback branch
sets `tree_kind = "imports"` unconditionally. -/
theorem c2_counterexample :
    (inspect_dependencies env0 20 "foo" "auto" false [] ⟨∅, ∅, ∅⟩).1.kind = some "imports"
    ∧ (inspect_dependencies env0 20 "foo" "auto" false [] ⟨∅, ∅, ∅⟩).1.modules = ∅
    ∧ (inspect_dependencies env0 20 "foo" "auto" false [] ⟨∅, ∅, ∅⟩).1.dists = ∅
    ∧ ¬ (inspect_dependencies env0 20 "foo" "auto" false [] ⟨∅, ∅, ∅⟩).1.kind = none := by
  refine ⟨by decide, by decide, by decide, by decide⟩

/-- Claim C2 amended: when the metadata walk yields empty distribution and
module sets, the import walk discovers nothing, and no config or caller
extras are supplied, `inspect_dependencies` returns empty module and
distribution sets with `strategy_used = imports` (never `none`), and, being a
total function of its inputs, without raising an exception. -/
theorem c2_amended (env : Env) (fuel : Nat) (name : String) (ie : Bool) (st : WState)
    (h1 : (buildMetadataGraph env.meta fuel name ie).dists = ∅)
    (h2 : (buildMetadataGraph env.meta fuel name ie).modules = ∅)
    (h3 : (runTasks env fuel [WTask.find name] ⟨∅, ∅, ∅⟩).external_deps = ∅)
    (h4 : getModuleExtras env name = []) :
    (inspect_dependencies env fuel name "auto" ie [] st).1.modules = ∅
    ∧ (inspect_dependencies env fuel name "auto" ie [] st).1.dists = ∅
    ∧ (inspect_dependencies env fuel name "auto" ie [] st).1.kind = some "imports" := by
  unfold inspect_dependencies
  rw [if_pos (Or.inr rfl)]
  rw [if_neg (by simp [h1, h2])]
  unfold importsFallback clearState
  dsimp only
  simp [h3, h4, inferDists_empty]

/-- Claim C2 witness: the amended statement applied to the empty environment. -/
theorem c2_witness :
    (inspect_dependencies env0 20 "foo" "auto" false [] ⟨∅, ∅, ∅⟩).1.modules = ∅
    ∧ (inspect_dependencies env0 20 "foo" "auto" false [] ⟨∅, ∅, ∅⟩).1.dists = ∅
    ∧ (inspect_dependencies env0 20 "foo" "auto" false [] ⟨∅, ∅, ∅⟩).1.kind
      = some "imports" :=
  c2_amended env0 20 "foo" false ⟨∅, ∅, ∅⟩ (by decide) (by decide) (by decide) (by decide)

/-- Claim C3: when the metadata walk returns empty results, the orchestrator
clears the resolution state before running the import walker — the result is
independent of the incoming mutable state — and the reported strategy is
`imports` (for every strategy argument, since the non-metadata branch also
clears and falls through to the import walker). -/
theorem c3_fallback_clears_state (env : Env) (fuel : Nat) (name strategy : String)
    (ie : Bool) (xm : List String) (st st' : WState)
    (h1 : (buildMetadataGraph env.meta fuel name ie).dists = ∅)
    (h2 : (buildMetadataGraph env.meta fuel name ie).modules = ∅) :
    inspect_dependencies env fuel name strategy ie xm st
      = inspect_dependencies env fuel name strategy ie xm st'
    ∧ (inspect_dependencies env fuel name strategy ie xm st).1.kind = some "imports" := by
  have key : ∀ s : WState,
      inspect_dependencies env fuel name strategy ie xm s
        = importsFallback env fuel name
            (∅ ∪ (getModuleExtras env name).toFinset ∪ xm.toFinset) s := by
    intro s
    unfold inspect_dependencies
    by_cases hs : (strategy = "metadata" ∨ strategy = "auto")
    · rw [if_pos hs, if_neg (by simp [h1, h2])]
    · rw [if_neg hs]
  have key2 : ∀ s : WState,
      importsFallback env fuel name
          (∅ ∪ (getModuleExtras env name).toFinset ∪ xm.toFinset) s
        = importsFallback env fuel name
            (∅ ∪ (getModuleExtras env name).toFinset ∪ xm.toFinset) ⟨∅, ∅, ∅⟩ := by
    intro s
    unfold importsFallback clearState
    rfl
  constructor
  · rw [key st, key st', key2 st, key2 st']
  · rw [key st, key2 st]
    unfold importsFallback
    rfl

/-- Claim C3 witness: the statement applied to the empty environment, with two
different incoming states. -/
theorem c3_witness :
    (inspect_dependencies env0 20 "foo" "auto" false [] ⟨∅, ∅, ∅⟩
      = inspect_dependencies env0 20 "foo" "auto" false [] ⟨∅, {"stale"}, ∅⟩)
    ∧ (inspect_dependencies env0 20 "foo" "auto" false [] ⟨∅, ∅, ∅⟩).1.kind
      = some "imports" :=
  c3_fallback_clears_state env0 20 "foo" "auto" false [] ⟨∅, ∅, ∅⟩ ⟨∅, {"stale"}, ∅⟩
    (by decide) (by decide)

/-- Claim C4 counterexample: with `foo` excluded and `bar` reachable only
through `foo`, the import walk still parses `foo`'s sources, so `bar` is
discovered (and `foo` still appears as an edge-graph node), contradicting
the claim that names reachable only through an excluded name are never
discovered. -/
theorem c4_counterexample :
    "bar" ∈ (runTasks env4 20 [WTask.find "foo"] ⟨∅, ∅, ∅⟩).external_deps
    ∧ "foo" ∉ (runTasks env4 20 [WTask.find "foo"] ⟨∅, ∅, ∅⟩).external_deps
    ∧ ("foo", "bar") ∈ (runTasks env4 20 [WTask.find "foo"] ⟨∅, ∅, ∅⟩).import_edges := by
  refine ⟨by decide, by decide, by decide⟩

/-- Claim C4 amended: a name with an excluded dotted-prefix ancestor never
itself enters the discovered set of an import-strategy resolution run started
from a cleared state — though it may still appear in the edge graph, and
non-excluded names reachable only through it may still be discovered. -/
theorem c4_amended (env : Env) (fuel : Nat) (root n : String)
    (hex : isExcluded env.excluded n = true) :
    n ∉ (runTasks env fuel [WTask.find root] ⟨∅, ∅, ∅⟩).external_deps := by
  intro hmem
  rcases runTasks_external_sub env fuel [WTask.find root] ⟨∅, ∅, ∅⟩ n hmem with h | h
  · exact absurd h (Finset.not_mem_empty n)
  · rw [hex] at h
    cases h

/-- Claim C4 witness: the excluded root `foo` of the counterexample
environment indeed never appears in the discovered set. -/
theorem c4_witness :
    "foo" ∉ (runTasks env4 9 [WTask.find "foo"] ⟨∅, ∅, ∅⟩).external_deps :=
  c4_amended env4 9 "foo" "foo" (by decide)

/-- Claim C5 counterexample: a requirement whose marker evaluation raises is
nonetheless dropped when it declares extras and `include_extras` is off: the
walk of `foo` records no edge and never reaches `bar`. -/
theorem c5_counterexample :
    ("foo", "bar") ∉ (buildMetadataGraph env5 10 "foo" false).tree
    ∧ (buildMetadataGraph env5 10 "foo" false).tree = ∅ := by
  refine ⟨by decide, by decide⟩

/-- Claim C5 amended: in the requirements loop of `build_metadata_graph`, a
parsed requirement with a nonempty name whose marker did not evaluate to
`False` (in particular one whose evaluation raises) has its edge recorded and
its name pushed, provided the extras filter does not drop it (extras empty or
`include_extras` on); skipping on marker grounds happens only on an explicit
`False`. -/
theorem c5_amended (env : MetaEnv) (ie : Bool) (dn : String) (reqs : List String)
    (acc : MetaResult × List String) (req n : String) (ex : Bool) (mk : MarkerCase)
    (hmem : req ∈ reqs) (hnorm : env.normalize req = ⟨some n, ex, mk⟩)
    (hne : ¬ n = "") (hmk : markerSkips mk = false) (hex : ex = true → ie = true) :
    (dn, n) ∈ (reqFold env ie dn reqs acc).1.tree
    ∧ n ∈ (reqFold env ie dn reqs acc).2 := by
  induction reqs generalizing acc with
  | nil => simp at hmem
  | cons r rs ihr =>
    rcases List.mem_cons.mp hmem with rfl | hmem2
    · have hstep : (dn, n) ∈ (reqStep env ie dn acc req).1.tree
          ∧ n ∈ (reqStep env ie dn acc req).2 := by
        unfold reqStep
        dsimp only
        rw [hnorm]
        dsimp only
        rw [if_neg hne, if_neg (by simp [hmk]),
          if_neg (by rintro ⟨hx1, hx2⟩; rw [hex hx1] at hx2; cases hx2)]
        exact ⟨Finset.mem_insert_self _ _, List.mem_cons_self _ _⟩
      unfold reqFold
      rw [List.foldl_cons]
      exact ⟨reqFold_tree_mono env ie dn rs _ hstep.1,
        reqFold_stack_mono env ie dn rs _ n hstep.2⟩
    · unfold reqFold
      rw [List.foldl_cons]
      exact ihr (reqStep env ie dn acc r) hmem2

/-- Claim C5 witness: a requirement parsing to name `bar` with empty extras
and a raising marker is recorded and pushed even with `include_extras` off. -/
theorem c5_witness :
    ("foo", "bar") ∈ (reqFold ⟨[], fun _ => ⟨some "bar", false, .raises⟩⟩ false "foo"
        ["req"] (⟨∅, ∅, ∅⟩, [])).1.tree
    ∧ "bar" ∈ (reqFold ⟨[], fun _ => ⟨some "bar", false, .raises⟩⟩ false "foo"
        ["req"] (⟨∅, ∅, ∅⟩, [])).2 :=
  c5_amended ⟨[], fun _ => ⟨some "bar", false, .raises⟩⟩ false "foo" ["req"]
    (⟨∅, ∅, ∅⟩, []) "req" "bar" false .raises (by decide) rfl (by decide) rfl
    (by intro h; cases h)

/-- Claim C6 counterexample: for `foo` declaring `bar` and
`baz; extra == "x"`, resolving with `include_extras = False` does not yield
`{foo, bar}` — `baz` is included, because the parsed extras set of a
marker-only requirement is empty (the fallback parser in the source yields no
marker and no extras at all), so the extras filter never fires. -/
theorem c6_counterexample :
    "baz" ∈ (buildMetadataGraph env6 20 "foo" false).dists
    ∧ ¬ (buildMetadataGraph env6 20 "foo" false).dists = {"foo", "bar"} := by
  refine ⟨by decide, by decide⟩

/-- Claim C6 amended: under the source's fallback requirement parser, both
`include_extras = False` and `include_extras = True` yield the distribution
set `{foo, bar, baz}`: `include_extras` only affects requirements whose own
extras set (`name[extra]` syntax) is nonempty, which an `extra == "x"` marker
does not produce. -/
theorem c6_amended :
    (buildMetadataGraph env6 20 "foo" false).dists = {"foo", "bar", "baz"}
    ∧ (buildMetadataGraph env6 20 "foo" true).dists = {"foo", "bar", "baz"} := by
  refine ⟨by decide, by decide⟩

/-- Claim C7: the tree renderer terminates on every graph once given fuel
beyond the node count (fuel is consumed once per depth level, and the
current-path set strictly grows along any descent), and on the cyclic graph
`{a: {b}, b: {a}}` rendered from `a` it prints the reappearing `a` with the
circular marker and does not descend further on that branch. -/
theorem c7_render_cycle :
    (∀ (adj : List (String × List String)) (roots : List String) (fuel : Nat),
      (rUniv adj roots).card < fuel → ∃ out, renderTree adj roots fuel = some out)
    ∧ renderTree [("a", ["b"]), ("b", ["a"])] ["a"] 10
      = some ["a\n", "└── b\n", "    └── a ↻ (circular)\n"] := by
  constructor
  · intro adj roots fuel h
    exact Option.isSome_iff_exists.mp (renderTree_isSome adj roots fuel h)
  · decide

/-- Claim C7 witness: the termination bound applied to the concrete cyclic
graph. -/
theorem c7_witness :
    (rUniv [("a", ["b"]), ("b", ["a"])] ["a"]).card < 10
    ∧ ∃ out, renderTree [("a", ["b"]), ("b", ["a"])] ["a"] 10 = some out :=
  ⟨by decide, c7_render_cycle.1 [("a", ["b"]), ("b", ["a"])] ["a"] 10 (by decide)⟩

/-- Claim C8: in the diamond graph `{root: {x, y}, x: {shared}, y: {shared}}`
rendered from `root`, the shared node is printed at both occurrences but its
subtree is expanded only at the first; the second occurrence carries the
already-shown marker and is not descended into. -/
theorem c8_render_diamond :
    renderTree [("root", ["x", "y"]), ("x", ["shared"]), ("y", ["shared"])] ["root"] 10
      = some ["root\n", "├── x\n", "│   └── shared\n", "└── y\n",
              "    └── shared (already shown)\n"] := by
  decide

/-- Claim C9 counterexample: the metadata strategy's graph records raw
`(distribution, requirement)` pairs: a self-requirement produces a self-edge,
and a dotted distribution name appears verbatim as a child that is not a
top-level segment. -/
theorem c9_counterexample :
    ("foo", "foo") ∈ (buildMetadataGraph env9 20 "foo" false).tree
    ∧ ("foo", "zope.interface") ∈ (buildMetadataGraph env9 20 "foo" false).tree
    ∧ ¬ topLevel "zope.interface" = "zope.interface" := by
  refine ⟨by decide, by decide, by decide⟩

/-- Claim C9 amended: in every graph the orchestrator returns with
`strategy_used = imports`, each edge's parent and child are top-level
segments and no edge joins a name to itself; the metadata-strategy graph
does not satisfy this invariant in general. -/
theorem c9_amended (env : Env) (fuel : Nat) (name strategy : String) (ie : Bool)
    (xm : List String) (st : WState) (e : String × String)
    (hk : (inspect_dependencies env fuel name strategy ie xm st).1.kind = some "imports")
    (he : e ∈ (inspect_dependencies env fuel name strategy ie xm st).1.graph) :
    edgeOk e := by
  have hempty : ∀ e' ∈ (WState.mk ∅ ∅ ∅).import_edges, edgeOk e' := by
    intro e' he'
    exact absurd he' (Finset.not_mem_empty e')
  unfold inspect_dependencies at hk he
  by_cases hs : (strategy = "metadata" ∨ strategy = "auto")
  · rw [if_pos hs] at hk he
    by_cases hm : (¬ (buildMetadataGraph env.meta fuel name ie).dists = ∅
        ∨ ¬ (buildMetadataGraph env.meta fuel name ie).modules = ∅)
    · rw [if_pos hm] at hk
      exact absurd hk (by simp)
    · rw [if_neg hm] at he
      unfold importsFallback clearState at he
      exact runTasks_edges_ok env fuel [WTask.find name] ⟨∅, ∅, ∅⟩ hempty e he
  · rw [if_neg hs] at he
    unfold importsFallback clearState at he
    exact runTasks_edges_ok env fuel [WTask.find name] ⟨∅, ∅, ∅⟩ hempty e he

/-- Claim C9 witness: the invariant applied to the edge `(foo, bar)` of the
imports-strategy scenario run. -/
theorem c9_witness : edgeOk ("foo", "bar") :=
  c9_amended env1 40 "foo" "imports" false [] ⟨∅, ∅, ∅⟩ ("foo", "bar")
    (by decide) (by decide)

/-- Claim C10: every module name listed under the configuration's per-module
`include_extras` entry for the requested name is contained in the module set
`inspect_dependencies` returns, for every strategy and in addition to any
caller-supplied extra modules. -/
theorem c10_config_extras (env : Env) (fuel : Nat) (name strategy : String)
    (ie : Bool) (xm : List String) (st : WState) (m : String)
    (hm : m ∈ getModuleExtras env name) :
    m ∈ (inspect_dependencies env fuel name strategy ie xm st).1.modules := by
  have hm0 : m ∈ (∅ ∪ (getModuleExtras env name).toFinset ∪ xm.toFinset : Finset String) :=
    Finset.mem_union_left _ (Finset.mem_union_right _ (List.mem_toFinset.mpr hm))
  unfold inspect_dependencies
  by_cases hs : (strategy = "metadata" ∨ strategy = "auto")
  · rw [if_pos hs]
    by_cases hb : (¬ (buildMetadataGraph env.meta fuel name ie).dists = ∅
        ∨ ¬ (buildMetadataGraph env.meta fuel name ie).modules = ∅)
    · rw [if_pos hb]
      exact Finset.mem_union_left _ hm0
    · rw [if_neg hb]
      unfold importsFallback
      exact Finset.mem_union_left _ hm0
  · rw [if_neg hs]
    unfold importsFallback
    exact Finset.mem_union_left _ hm0

/-- Claim C10 witness: the config extra `extramod` of module `pkg` is in the
returned module set. -/
theorem c10_witness :
    "extramod" ∈ (inspect_dependencies env10 5 "pkg" "auto" false [] ⟨∅, ∅, ∅⟩).1.modules :=
  c10_config_extras env10 5 "pkg" "auto" false [] ⟨∅, ∅, ∅⟩ "extramod" (by decide)
